import Mathlib

/-!
Verification of the k8s-nodeless core (identifier parser, stream discovery,
log tail engine) against its natural-language specification.

The Go source (aws.go, config.go, main.go) is shallowly embedded below:
pure functions become Lean functions, the mutable `AWSServerless` tail state
becomes an explicit `TailState` record threaded through the per-event,
per-page and per-cycle processing functions, and the two Go regular
expressions are modelled by an explicit leftmost-match / greedy-capture
search over character lists.
-/

set_option maxRecDepth 4000

/-! ## Identifier parser (aws.go, `parseAWSFuncName`) -/

/-- Model of Go `strings.Split(s, sep)` for a single-character separator:
splitting the empty list yields one empty segment, exactly as in Go. -/
def splitOnChar (sep : Char) : List Char → List (List Char)
  | [] => [[]]
  | c :: rest =>
    if c = sep then [] :: splitOnChar sep rest
    else
      match splitOnChar sep rest with
      | h :: t => (c :: h) :: t
      | [] => [[c]]

/-- `strings.Split(funcName, ":")` as used by `parseAWSFuncName`. -/
def goSplit (s : String) : List String :=
  (splitOnChar ':' s.data).map fun l => String.mk l

/-- Accumulate the numeric value of a list of decimal digit characters. -/
def digitsVal (l : List Char) : Nat :=
  l.foldl (fun a c => a * 10 + (c.toNat - '0'.toNat)) 0

/-- Model of Go `strconv.Atoi`: optional sign, then one or more ASCII decimal
digits spanning the whole string, rejecting values outside the 64-bit `int`
range (Go returns `ErrRange` there, and the caller only tests `err == nil`). -/
def goAtoi (s : String) : Option Int :=
  let (neg, ds) :=
    match s.data with
    | '+' :: rest => (false, rest)
    | '-' :: rest => (true, rest)
    | l => (false, l)
  if ds = [] then none
  else if ds.all Char.isDigit then
    let v : Int := if neg then -(Int.ofNat (digitsVal ds)) else Int.ofNat (digitsVal ds)
    if v < -(2 ^ 63) ∨ 2 ^ 63 - 1 < v then none else some v
  else none

/-- Outcome of `parseAWSFuncName`: a `(logGroupName, region)` pair, the Go
error return, or a Go runtime panic caused by indexing the split result out
of range (`p[idx]` with `idx ≥ len(p)`). -/
inductive ParseResult where
  | ok (logGroupName : String) (region : String)
  | err (msg : String)
  | panic (idx : Nat)
deriving DecidableEq

/-- Embedding of `parseAWSFuncName` (aws.go). The source checks, in order:
a single segment (bare function name); `p[0] == "arn" && p[1] == "aws"`
(full ARN, reading `p[6]` and `p[3]` unguarded); `strconv.Atoi(p[0])`
succeeding and `p[1] == "function"` (partial ARN, reading `p[2]` unguarded);
otherwise it returns the "wrong format function name" error. Unguarded
reads out of range are modelled as `ParseResult.panic`. -/
def parseAWSFuncName (funcName : String) : ParseResult :=
  let p := goSplit funcName
  if p.length = 1 then
    ParseResult.ok ("/aws/lambda/" ++ funcName) ""
  else if p.getD 0 "" = "arn" ∧ p.getD 1 "" = "aws" then
    match p[6]? with
    | none => ParseResult.panic 6
    | some s6 =>
      match p[3]? with
      | none => ParseResult.panic 3
      | some s3 => ParseResult.ok ("/aws/lambda/" ++ s6) s3
  else if (goAtoi (p.getD 0 "")).isSome = true ∧ p.getD 1 "" = "function" then
    match p[2]? with
    | none => ParseResult.panic 2
    | some s2 => ParseResult.ok ("/aws/lambda/" ++ s2) ""
  else
    ParseResult.err ("wrong format function name, " ++ funcName)

/-! ## Marker extraction (aws.go, `startRequestRe` / `endRequestRe`)

The source compiles `START RequestId: (.+) Version:` and
`END RequestId: (.+)` with Go's `regexp` package and calls
`FindStringSubmatch`.  Go regexp semantics for these two patterns:
the overall match starts at the leftmost position from which the whole
pattern can match, `.` matches any character except a newline, and the
greedy `(.+)` takes the longest capture that still lets the literal tail
of the pattern match.  We model this directly over character lists. -/

/-- Whether `pat` occurs at the head of `s` (Go: the pattern's literal part
matches at this position). -/
def listStartsWith : List Char → List Char → Bool
  | [], _ => true
  | _ :: _, [] => false
  | p :: ps, c :: cs => if p = c then listStartsWith ps cs else false

/-- Whether `pat` occurs anywhere inside `s`. -/
def containsSeq (pat : List Char) : List Char → Bool
  | [] => listStartsWith pat []
  | c :: rest => listStartsWith pat (c :: rest) || containsSeq pat rest

/-- Largest index `j ≥ 1` such that `suf` occurs at position `j` of `l`
(the greedy choice point for `(.+)suf`); `none` when no such index exists. -/
def greedyIdx (suf : List Char) : List Char → Option Nat
  | [] => none
  | _ :: t =>
    match greedyIdx suf t with
    | some j => some (j + 1)
    | none => if listStartsWith suf t then some 1 else none

/-- Greedy capture for `(.+)suf` starting at the head of `rest`: the longest
nonempty newline-free prefix of `rest` followed immediately by `suf`.  Since
neither capture nor the literal suffixes of the two source patterns may
contain a newline, the whole search happens inside the first line of
`rest`. -/
def greedyCap (rest suf : List Char) : Option (List Char) :=
  let line := rest.takeWhile fun c => c != '\n'
  match greedyIdx suf line with
  | some j => some (line.take j)
  | none => none

/-- Leftmost-match search for the pattern `pat(.+)suf`: try every start
position from the left; at a position where the literal `pat` matches,
return the greedy capture if one exists, otherwise keep scanning. -/
def findSubmatch (pat suf : List Char) : List Char → Option (List Char)
  | [] => none
  | c :: rest =>
    if listStartsWith pat (c :: rest) then
      match greedyCap ((c :: rest).drop pat.length) suf with
      | some cap => some cap
      | none => findSubmatch pat suf rest
    else findSubmatch pat suf rest

/-- Literal head of `startRequestRe`. -/
def startReqPat : List Char := "START RequestId: ".data

/-- Literal tail of `startRequestRe`. -/
def startReqSuf : List Char := " Version:".data

/-- Literal head of `endRequestRe` (its tail is empty). -/
def endReqPat : List Char := "END RequestId: ".data

/-- `startRequestRe.FindStringSubmatch(msg)`: the capture group, if the
pattern matches. -/
def startRequestSubmatch (msg : String) : Option String :=
  (findSubmatch startReqPat startReqSuf msg.data).map fun l => String.mk l

/-- `endRequestRe.FindStringSubmatch(msg)`: the capture group, if the
pattern matches. -/
def endRequestSubmatch (msg : String) : Option String :=
  (findSubmatch endReqPat [] msg.data).map fun l => String.mk l

/-! ## Tail session state and per-event processing (aws.go, `logTail`) -/

/-- Source constant block: `maxEventsCache = 100000` (LRU capacity). -/
def maxEventsCache : Nat := 100000

/-- Source constant block: `watchSleepTime = 500` (poll interval, ms). -/
def watchSleepTime : Nat := 500

/-- Literal `time.Sleep(500 * time.Millisecond)` used on ThrottlingException
in `logTail` and `listLogStreams`. -/
def throttleBackoffMillis : Nat := 500

/-- One CloudWatch filtered log event, as read by the `logTail` page
callback: `EventId`, `Message`, `IngestionTime`. -/
structure LogEvent where
  eventId : String
  message : String
  ingestionTime : Int
deriving DecidableEq

/-- The mutable tail-session state of `AWSServerless` during `logTail`:
the LRU event cache (most recent first, capacity `maxEventsCache`), the
`requestId` field (empty string = not yet bound), whether the buffered
`done` channel holds a signal, the `lastSeenTime` watermark, the log lines
emitted through `logger.Infow`, and the diagnostic lines emitted through
`logger.Infof` on an end-marker match. -/
structure TailState where
  eventCache : List String
  requestId : String
  doneSignal : Bool
  lastSeenTime : Int
  emitted : List String
  diagnostics : List String
deriving DecidableEq

/-- `eventCache.Peek(id)`: membership test without recency update. -/
def cachePeek (cache : List String) (id : String) : Bool :=
  cache.contains id

/-- `eventCache.Add(id, nil)`: insert at the front, evicting the oldest
entry when the capacity `maxEventsCache` is exceeded.  `Add` is only
called after a failed `Peek`, so the moved-to-front case never arises. -/
def cacheAdd (cache : List String) (id : String) : List String :=
  (id :: cache).take maxEventsCache

/-- The body of the `for _, event := range res.Events` loop in the
`logTail` page callback: skip events whose id is cached; otherwise cache
the id, emit the message, and either attempt start-marker extraction
(when `requestId` is empty) or end-marker extraction (when it is set,
sending on `done` and logging a match/mismatch diagnostic).  This is the
progress projection of the callback: the `done <- struct{}{}` send is
recorded as `doneSignal := true`, which is faithful only while the
capacity-1 `done` channel has room — a send on a full channel blocks the
goroutine forever, which this function cannot express; the
blocking-faithful refinement is `processEventBlocking` below, and the two
agree on every non-blocking step (`processEventBlocking_ok`). -/
def processEvent (st : TailState) (ev : LogEvent) : TailState :=
  if cachePeek st.eventCache ev.eventId then st
  else
    let st1 : TailState :=
      { st with
        eventCache := cacheAdd st.eventCache ev.eventId
        emitted := st.emitted ++ [ev.message] }
    if st1.requestId = "" then
      match startRequestSubmatch ev.message with
      | some rid => { st1 with requestId := rid }
      | none => st1
    else
      match endRequestSubmatch ev.message with
      | some rid =>
        { st1 with
          doneSignal := true
          diagnostics := st1.diagnostics ++
            [if st1.requestId = rid then st1.requestId ++ " has been finished"
             else st1.requestId ++ " has already finished but not catched"] }
      | none => st1

/-- One invocation of the `logTail` page callback `fn`: process every event
of the page, then, when this is the last page and it is nonempty, advance
`lastSeenTime` to the ingestion time of its final event. -/
def processPage (st : TailState) (page : List LogEvent) (lastPage : Bool) : TailState :=
  let st1 := page.foldl processEvent st
  if lastPage then
    match page.getLast? with
    | some e => { st1 with lastSeenTime := e.ingestionTime }
    | none => st1
  else st1

/-- A successful `FilterLogEventsPages` call: the callback runs on every
page, with `lastPage = true` exactly on the final one. -/
def processPages (st : TailState) : List (List LogEvent) → TailState
  | [] => st
  | [p] => processPage st p true
  | p :: q :: rest => processPages (processPage st p false) (q :: rest)

/-- A `FilterLogEventsPages` call that fails while paginating: the pages
delivered before the error were all passed to the callback with
`lastPage = false`. -/
def processDeliveredPages (st : TailState) (ps : List (List LogEvent)) : TailState :=
  ps.foldl (fun s p => processPage s p false) st

/-! ## Stream discovery (aws.go, `listLogStreams`) -/

/-- One described log stream, as read by the `listLogStreams` page
callback: the four pointer fields it dereferences plus the name. -/
structure LogStream where
  logStreamName : String
  firstEventTimestamp : Option Int
  lastEventTimestamp : Option Int
  lastIngestionTime : Option Int
  uploadSequenceToken : Option String
deriving DecidableEq

/-- The per-stream selection test of the `listLogStreams` page callback:
skip a stream when `FirstEventTimestamp`, `LastEventTimestamp`,
`LastIngestionTime` or `UploadSequenceToken` is nil, and skip it when
`*LastIngestionTime < since`; otherwise it is a candidate. -/
def streamCandidate (since : Int) (s : LogStream) : Bool :=
  match s.firstEventTimestamp, s.lastEventTimestamp,
        s.lastIngestionTime, s.uploadSequenceToken with
  | some _, some _, some ingestion, some _ => !(ingestion < since)
  | _, _, _, _ => false

/-- One invocation of the `listLogStreams` page callback: append the names
of the candidate streams to the accumulator and report whether this page
contained any candidate (`hasUpdatedStream`). -/
def streamsPageStep (since : Int) (acc : List String) (page : List LogStream) :
    List String × Bool :=
  page.foldl
    (fun r s =>
      if streamCandidate since s then (r.1 ++ [s.logStreamName], true) else r)
    (acc, false)

/-- The pagination of `DescribeLogStreamsPagesWithContext`: pages are
delivered in order while the callback keeps returning `true`. -/
def listLogStreamsPages (since : Int) : List (List LogStream) → List String → List String
  | [], acc => acc
  | p :: rest, acc =>
    let r := streamsPageStep since acc p
    if r.2 then listLogStreamsPages since rest r.1 else r.1

/-- Distinguishable backend error classes tested by the source through
`awserr.Error.Code()`. -/
inductive BackendErr where
  | throttling
  | notFound
  | other (code : String)
deriving DecidableEq

/-- Outcome of a `listLogStreams` call. -/
inductive DiscResult where
  | ok (streams : List String)
  | fail (msg : String)
deriving DecidableEq

/-- Embedding of `listLogStreams`: on success the collected candidate
names; on `ResourceNotFoundException` the names collected so far with no
error; on `ThrottlingException` a 500ms sleep and `nil, nil` (the collected
names are discarded); on any other error a wrapped fatal error. -/
def listLogStreamsModel (since : Int) (pages : List (List LogStream))
    (err : Option BackendErr) : DiscResult :=
  let streams := listLogStreamsPages since pages []
  match err with
  | none => DiscResult.ok streams
  | some BackendErr.notFound => DiscResult.ok streams
  | some BackendErr.throttling => DiscResult.ok []
  | some (BackendErr.other code) => DiscResult.fail ("DescribeLogStreams, " ++ code)

/-! ## The poll loop (aws.go, `logTail` select loop) -/

/-- The backend's behaviour during one timer tick, supplied by the
environment: the stream pages delivered by discovery (before its error, if
any), the discovery error, the event pages delivered by the fetch (before
its error, if any), the fetch error, and whether the cancellation context
is done when the loop reaches its `select`. -/
structure CycleInput where
  discPages : List (List LogStream)
  discErr : Option BackendErr
  fetchPages : List (List LogEvent)
  fetchErr : Option BackendErr
  ctxDone : Bool
deriving DecidableEq

/-- Result of one `case <-start:` iteration of the select loop. -/
inductive StepResult where
  | next (st : TailState)
  | fail (st : TailState) (err : String)
deriving DecidableEq

/-- The session state carried by a step result. -/
def stepState : StepResult → TailState
  | StepResult.next st => st
  | StepResult.fail st _ => st

/-- One `case <-start:` iteration of `logTail`: call `listLogStreams` with
the current watermark (a discovery failure aborts the loop); skip the cycle
when no streams qualify; otherwise run `FilterLogEventsPages` — on success
all pages are processed, on `ThrottlingException` the already-delivered
pages were processed with `lastPage = false` and the loop sleeps 500ms and
continues, and on any other error the loop aborts. -/
def tickStep (st : TailState) (inp : CycleInput) : StepResult :=
  match listLogStreamsModel st.lastSeenTime inp.discPages inp.discErr with
  | DiscResult.fail e => StepResult.fail st ("listLogStreams: " ++ e)
  | DiscResult.ok streams =>
    if streams.isEmpty then StepResult.next st
    else
      match inp.fetchErr with
      | none => StepResult.next (processPages st inp.fetchPages)
      | some BackendErr.throttling =>
        StepResult.next (processDeliveredPages st inp.fetchPages)
      | some BackendErr.notFound =>
        StepResult.fail (processDeliveredPages st inp.fetchPages)
          "FilterLogEventsPages: ResourceNotFoundException"
      | some (BackendErr.other code) =>
        StepResult.fail (processDeliveredPages st inp.fetchPages)
          ("FilterLogEventsPages: " ++ code)

/-- How the select loop ends (or that it is still polling when the supplied
cycle inputs run out): `finished` is the `case <-done: return nil` exit,
`failed` an error return, `cancelled` the `case <-ctx.Done(): return
ctx.Err()` exit — a distinct outcome, distinguishable from backend
failures. -/
inductive LoopResult where
  | finished (st : TailState)
  | failed (st : TailState) (err : String)
  | cancelled (st : TailState)
  | stillPolling (st : TailState)
deriving DecidableEq

/-- The select loop of `logTail`, one `CycleInput` per timer tick.  Go's
`select` chooses randomly among ready channels; we model the schedule in
which a buffered `done` signal is received first, then `ctx.Done()`, then
the tick. -/
def runCycles : TailState → List CycleInput → LoopResult
  | st, [] => if st.doneSignal then LoopResult.finished st else LoopResult.stillPolling st
  | st, i :: rest =>
    if st.doneSignal then LoopResult.finished st
    else if i.ctxDone then LoopResult.cancelled st
    else
      match tickStep st i with
      | StepResult.next st2 => runCycles st2 rest
      | StepResult.fail st2 e => LoopResult.failed st2 e

/-! ## Context threading (aws.go, the three backend calls) -/

/-- A blocking backend call made by the engine, and whether the source
passes the cancellation context to it. -/
structure BackendCall where
  name : String
  withContext : Bool
deriving DecidableEq

/-- The three blocking backend calls in the source: `Invoke` uses
`svc.InvokeWithContext(ctx, input)`, `listLogStreams` uses
`DescribeLogStreamsPagesWithContext(ctx, input, fn)`, but `logTail` calls
`sl.logClient.FilterLogEventsPages(input, fn)` — the variant without a
context argument. -/
def engineBackendCalls : List BackendCall :=
  [ { name := "InvokeWithContext", withContext := true },
    { name := "DescribeLogStreamsPagesWithContext", withContext := true },
    { name := "FilterLogEventsPages", withContext := false } ]

/-- The candidate condition exactly as claim C5 words it ("its
lastIngestionTime ≥ lastSeenTime and all of its timestamp fields
(firstEventTimestamp, lastEventTimestamp, lastIngestionTime) are present,
and no other condition excludes a stream").  Stated from the claim, for
comparison against `streamCandidate`, which is embedded from the source. -/
def claimStreamCandidate (since : Int) (s : LogStream) : Bool :=
  match s.firstEventTimestamp, s.lastEventTimestamp, s.lastIngestionTime with
  | some _, some _, some ingestion => !(ingestion < since)
  | _, _, _ => false

/-- The ingestion time of the last event of the last page of a
`FilterLogEventsPages` result, when both exist. -/
def lastEventIngestion (ps : List (List LogEvent)) : Option Int :=
  (ps.getLast?.bind List.getLast?).map LogEvent.ingestionTime

/-! ## Blocking semantics of the `done` channel (aws.go, `logTail`)

`done` is a buffered channel of capacity one, and `done <- struct{}{}`
fires on every end-marker match.  Its only receiver is the `case <-done`
branch of the select loop, which is blocked for the whole synchronous
`FilterLogEventsPages` call while the page callback runs — so a send
against a full channel blocks the callback goroutine forever and the call
never returns.  `processEvent` above is the progress projection of the
callback (faithful whenever no send blocks); the definitions below embed
the send faithfully, with a `stuck` outcome for the blocking case. -/

/-- Result of running a piece of the page callback under the faithful
semantics of the capacity-1 `done` channel: either the goroutine
progresses to a new state, or it is stuck forever on a `done <-` send
against a full channel. -/
inductive ChanStep where
  | ok (st : TailState)
  | stuck (st : TailState)
deriving DecidableEq

/-- Blocking-faithful embedding of the event-loop body of the `logTail`
page callback.  `doneSignal` is the occupancy of the capacity-1 `done`
channel; a send on a full channel blocks the goroutine forever.  At the
moment of blocking the event's id has already been cached and its message
emitted, but the match/mismatch diagnostic that follows the send is never
logged.  Agrees with `processEvent` whenever it does not get stuck
(`processEventBlocking_ok`). -/
def processEventBlocking (st : TailState) (ev : LogEvent) : ChanStep :=
  if cachePeek st.eventCache ev.eventId then ChanStep.ok st
  else
    let st1 : TailState :=
      { st with
        eventCache := cacheAdd st.eventCache ev.eventId
        emitted := st.emitted ++ [ev.message] }
    if st1.requestId = "" then
      match startRequestSubmatch ev.message with
      | some rid => ChanStep.ok { st1 with requestId := rid }
      | none => ChanStep.ok st1
    else
      match endRequestSubmatch ev.message with
      | some rid =>
        if st1.doneSignal then ChanStep.stuck st1
        else
          ChanStep.ok
            { st1 with
              doneSignal := true
              diagnostics := st1.diagnostics ++
                [if st1.requestId = rid then st1.requestId ++ " has been finished"
                 else st1.requestId ++ " has already finished but not catched"] }
      | none => ChanStep.ok st1

/-- The page callback's event loop under the blocking semantics: a stuck
send freezes the goroutine, and no further event is processed. -/
def runEventsBlocking : TailState → List LogEvent → ChanStep
  | st, [] => ChanStep.ok st
  | st, ev :: rest =>
    match processEventBlocking st ev with
    | ChanStep.ok st2 => runEventsBlocking st2 rest
    | ChanStep.stuck st2 => ChanStep.stuck st2

/-- One page-callback invocation under the blocking semantics; the
watermark update after the event loop is reached only when no send
blocked. -/
def processPageBlocking (st : TailState) (page : List LogEvent) (lastPage : Bool) :
    ChanStep :=
  match runEventsBlocking st page with
  | ChanStep.stuck st2 => ChanStep.stuck st2
  | ChanStep.ok st2 =>
    if lastPage then
      match page.getLast? with
      | some e => ChanStep.ok { st2 with lastSeenTime := e.ingestionTime }
      | none => ChanStep.ok st2
    else ChanStep.ok st2

/-- A whole `FilterLogEventsPages` pagination under the blocking
semantics: a stuck callback goroutine means the synchronous call never
returns and the tail loop hangs forever. -/
def processPagesBlocking : TailState → List (List LogEvent) → ChanStep
  | st, [] => ChanStep.ok st
  | st, [p] => processPageBlocking st p true
  | st, p :: q :: rest =>
    match processPageBlocking st p false with
    | ChanStep.ok st2 => processPagesBlocking st2 (q :: rest)
    | ChanStep.stuck st2 => ChanStep.stuck st2

/-- Whether the callback goroutine is stuck. -/
def isStuck : ChanStep → Bool
  | ChanStep.ok _ => false
  | ChanStep.stuck _ => true

/-! ## Helper lemmas about the marker-extraction model -/

theorem lsw_self_append (a b : List Char) : listStartsWith a (a ++ b) = true := by
  induction a with
  | nil => rfl
  | cons c t ih => simp [listStartsWith, ih]

theorem greedyIdx_none (suf l : List Char)
    (h : ∀ v, 1 ≤ v → listStartsWith suf (l.drop v) = false) :
    greedyIdx suf l = none := by
  induction l with
  | nil => rfl
  | cons c t ih =>
    have ht : greedyIdx suf t = none :=
      ih fun v hv => by simpa using h (v + 1) (by omega)
    have h1 : listStartsWith suf t = false := by simpa using h 1 (by omega)
    simp [greedyIdx, ht, h1]

theorem greedyIdx_eq (suf l : List Char) (j : Nat) (hj : 1 ≤ j)
    (hmatch : listStartsWith suf (l.drop j) = true)
    (habove : ∀ t, j < t → listStartsWith suf (l.drop t) = false) :
    greedyIdx suf l = some j := by
  induction l generalizing j with
  | nil =>
    exfalso
    have h1 : listStartsWith suf ([] : List Char) = true := by simpa using hmatch
    have h2 : listStartsWith suf ([] : List Char) = false := by
      simpa using habove (j + 1) (by omega)
    rw [h1] at h2
    exact Bool.noConfusion h2
  | cons c t ih =>
    rcases j with _ | j'
    · omega
    rcases j' with _ | j''
    · have ht : greedyIdx suf t = none :=
        greedyIdx_none suf t fun v hv => by simpa using habove (v + 1) (by omega)
      have h1 : listStartsWith suf t = true := by simpa using hmatch
      simp [greedyIdx, ht, h1]
    · have ihres : greedyIdx suf t = some (j'' + 1) := by
        apply ih (j'' + 1) (by omega)
        · simpa using hmatch
        · intro u hu
          simpa using habove (u + 1) (by omega)
      simp [greedyIdx, ihres]

theorem greedyIdx_empty (l : List Char) (h : l ≠ []) :
    greedyIdx [] l = some l.length := by
  induction l with
  | nil => exact absurd rfl h
  | cons c t ih =>
    cases t with
    | nil => rfl
    | cons d t' =>
      have ht := ih (by simp)
      show (match greedyIdx [] (d :: t') with
            | some j => some (j + 1)
            | none => if listStartsWith [] (d :: t') = true then some 1 else none) =
          some ((c :: d :: t').length)
      rw [ht]
      simp

theorem findSubmatch_skip (pat suf pre s : List Char)
    (h : ∀ i, i < pre.length → listStartsWith pat ((pre ++ s).drop i) = false) :
    findSubmatch pat suf (pre ++ s) = findSubmatch pat suf s := by
  induction pre with
  | nil => rfl
  | cons c t ih =>
    have h0 : listStartsWith pat (c :: (t ++ s)) = false := by
      simpa using h 0 (by simp)
    have step : findSubmatch pat suf (c :: (t ++ s)) = findSubmatch pat suf (t ++ s) := by
      simp [findSubmatch, h0]
    exact step.trans (ih fun i hi => by simpa using h (i + 1) (by simpa using hi))

theorem findSubmatch_at (pat suf rest cap : List Char) (hpat : pat ≠ [])
    (hcap : greedyCap rest suf = some cap) :
    findSubmatch pat suf (pat ++ rest) = some cap := by
  cases pat with
  | nil => exact absurd rfl hpat
  | cons p ps =>
    have h1 : listStartsWith (p :: ps) ((p :: ps) ++ rest) = true := lsw_self_append _ _
    have h2 : ((p :: ps) ++ rest).drop (p :: ps).length = rest := List.drop_left _ _
    show findSubmatch (p :: ps) suf (p :: (ps ++ rest)) = some cap
    rw [findSubmatch]
    simp only [List.cons_append] at h1 h2
    rw [h1]
    simp only [if_true, h2, hcap]

theorem findSubmatch_none (pat suf s : List Char) (h : containsSeq pat s = false) :
    findSubmatch pat suf s = none := by
  induction s with
  | nil => rfl
  | cons c t ih =>
    have h' : listStartsWith pat (c :: t) = false ∧ containsSeq pat t = false := by
      simpa [containsSeq, Bool.or_eq_false_iff] using h
    simp [findSubmatch, h'.1, ih h'.2]

theorem takeWhile_append_all (p : Char → Bool) (a b : List Char)
    (h : ∀ x ∈ a, p x = true) :
    (a ++ b).takeWhile p = a ++ b.takeWhile p := by
  induction a with
  | nil => rfl
  | cons c t ih =>
    have hc : p c = true := h c (List.mem_cons_self c t)
    simp only [List.cons_append, List.takeWhile_cons, hc, if_true]
    rw [ih fun x hx => h x (List.mem_cons_of_mem _ hx)]

theorem drop_append_add (a b : List Char) (u : Nat) :
    (a ++ b).drop (a.length + u) = b.drop u := by
  induction a with
  | nil => simp
  | cons c t ih =>
    show (c :: (t ++ b)).drop (t.length + 1 + u) = b.drop u
    rw [Nat.add_right_comm t.length 1 u, List.drop_succ_cons]
    exact ih


/-! ## Helper lemmas about the tail-session state -/

theorem getLast?_mem_own {α : Type} (l : List α) (a : α) (h : l.getLast? = some a) :
    a ∈ l := by
  induction l with
  | nil => simp at h
  | cons c t ih =>
    cases t with
    | nil =>
      simp only [List.getLast?_singleton, Option.some.injEq] at h
      simp [h]
    | cons d t' =>
      rw [List.getLast?_cons_cons] at h
      exact List.mem_cons_of_mem _ (ih h)

theorem processEvent_lastSeenTime (st : TailState) (ev : LogEvent) :
    (processEvent st ev).lastSeenTime = st.lastSeenTime := by
  by_cases hc : cachePeek st.eventCache ev.eventId = true
  · simp [processEvent, hc]
  · by_cases hr : st.requestId = ""
    · cases hs : startRequestSubmatch ev.message <;> simp [processEvent, hc, hr, hs]
    · cases hs : endRequestSubmatch ev.message <;> simp [processEvent, hc, hr, hs]

theorem foldl_processEvent_lastSeenTime (evs : List LogEvent) (st : TailState) :
    (evs.foldl processEvent st).lastSeenTime = st.lastSeenTime := by
  induction evs generalizing st with
  | nil => rfl
  | cons e t ih => rw [List.foldl_cons, ih, processEvent_lastSeenTime]

theorem processPage_false_lastSeenTime (st : TailState) (p : List LogEvent) :
    (processPage st p false).lastSeenTime = st.lastSeenTime := by
  simp [processPage, foldl_processEvent_lastSeenTime]

theorem processPage_true_lastSeenTime (st : TailState) (p : List LogEvent) :
    (processPage st p true).lastSeenTime =
      ((p.getLast?).map LogEvent.ingestionTime).getD st.lastSeenTime := by
  cases h : p.getLast? with
  | none => simp [processPage, h, foldl_processEvent_lastSeenTime]
  | some e => simp [processPage, h]

theorem processPages_lastSeenTime (ps : List (List LogEvent)) (st : TailState) :
    (processPages st ps).lastSeenTime = (lastEventIngestion ps).getD st.lastSeenTime := by
  induction ps generalizing st with
  | nil => rfl
  | cons p t ih =>
    cases t with
    | nil =>
      show (processPage st p true).lastSeenTime = _
      rw [processPage_true_lastSeenTime]
      cases h : p.getLast? <;> simp [lastEventIngestion, h]
    | cons q t' =>
      show (processPages (processPage st p false) (q :: t')).lastSeenTime = _
      rw [ih, processPage_false_lastSeenTime]
      simp [lastEventIngestion, List.getLast?_cons_cons]

theorem processDeliveredPages_lastSeenTime (ps : List (List LogEvent)) (st : TailState) :
    (processDeliveredPages st ps).lastSeenTime = st.lastSeenTime := by
  induction ps generalizing st with
  | nil => rfl
  | cons p t ih =>
    show (List.foldl _ (processPage st p false) t).lastSeenTime = _
    have := ih (processPage st p false)
    unfold processDeliveredPages at this
    rw [this, processPage_false_lastSeenTime]

theorem processEvent_requestId_ne (st : TailState) (ev : LogEvent)
    (h : st.requestId ≠ "") :
    (processEvent st ev).requestId = st.requestId := by
  by_cases hc : cachePeek st.eventCache ev.eventId = true
  · simp [processEvent, hc]
  · cases hs : endRequestSubmatch ev.message <;> simp [processEvent, hc, h, hs]

theorem foldl_processEvent_requestId_ne (evs : List LogEvent) (st : TailState)
    (h : st.requestId ≠ "") :
    (evs.foldl processEvent st).requestId = st.requestId := by
  induction evs generalizing st with
  | nil => rfl
  | cons e t ih =>
    rw [List.foldl_cons]
    rw [ih (processEvent st e) (by rw [processEvent_requestId_ne st e h]; exact h)]
    exact processEvent_requestId_ne st e h

theorem processPage_requestId_ne (st : TailState) (p : List LogEvent) (b : Bool)
    (h : st.requestId ≠ "") :
    (processPage st p b).requestId = st.requestId := by
  cases hl : p.getLast? <;> cases b <;>
    simp [processPage, hl, foldl_processEvent_requestId_ne p st h]

theorem processPages_requestId_ne (ps : List (List LogEvent)) (st : TailState)
    (h : st.requestId ≠ "") :
    (processPages st ps).requestId = st.requestId := by
  induction ps generalizing st with
  | nil => rfl
  | cons p t ih =>
    cases t with
    | nil => exact processPage_requestId_ne st p true h
    | cons q t' =>
      show (processPages (processPage st p false) (q :: t')).requestId = _
      rw [ih (processPage st p false)
            (by rw [processPage_requestId_ne st p false h]; exact h)]
      exact processPage_requestId_ne st p false h

theorem processEvent_doneSignal_mono (st : TailState) (ev : LogEvent)
    (h : st.doneSignal = true) :
    (processEvent st ev).doneSignal = true := by
  by_cases hc : cachePeek st.eventCache ev.eventId = true
  · simp [processEvent, hc, h]
  · by_cases hr : st.requestId = ""
    · cases hs : startRequestSubmatch ev.message <;> simp [processEvent, hc, hr, hs, h]
    · cases hs : endRequestSubmatch ev.message <;> simp [processEvent, hc, hr, hs, h]

theorem foldl_processEvent_doneSignal (evs : List LogEvent) (st : TailState)
    (h : st.doneSignal = true) :
    (evs.foldl processEvent st).doneSignal = true := by
  induction evs generalizing st with
  | nil => exact h
  | cons e t ih => exact ih _ (processEvent_doneSignal_mono st e h)

theorem processPage_doneSignal (st : TailState) (p : List LogEvent) (b : Bool)
    (h : st.doneSignal = true) :
    (processPage st p b).doneSignal = true := by
  cases hl : p.getLast? <;> cases b <;>
    simp [processPage, hl, foldl_processEvent_doneSignal p st h]

theorem processPages_doneSignal (ps : List (List LogEvent)) (st : TailState)
    (h : st.doneSignal = true) :
    (processPages st ps).doneSignal = true := by
  induction ps generalizing st with
  | nil => exact h
  | cons p t ih =>
    cases t with
    | nil => exact processPage_doneSignal st p true h
    | cons q t' => exact ih _ (processPage_doneSignal st p false h)

theorem runCycles_done (st : TailState) (h : st.doneSignal = true)
    (inps : List CycleInput) :
    runCycles st inps = LoopResult.finished st := by
  cases inps <;> simp [runCycles, h]

theorem processEvent_cached (st : TailState) (ev : LogEvent)
    (h : cachePeek st.eventCache ev.eventId = true) :
    processEvent st ev = st := by
  unfold processEvent
  rw [if_pos h]

/-! ## Claim C1 — deduplication -/

/-- Claim C10: once the session's `requestId` is non-empty, no
subsequently processed event — nor any whole pagination of pages — ever
changes it: start-marker extraction only runs while `requestId` is the
empty string. -/
theorem requestId_never_rebinds (st : TailState) (h : st.requestId ≠ "") :
    (∀ ev, (processEvent st ev).requestId = st.requestId) ∧
    (∀ ps, (processPages st ps).requestId = st.requestId) :=
  ⟨fun ev => processEvent_requestId_ne st ev h,
   fun ps => processPages_requestId_ne ps st h⟩

/-- Witness for C10: a bound session processes a fresh start-marker event
and keeps its original requestId. -/
theorem requestId_never_rebinds_witness :
    (processPages
        { eventCache := [], requestId := "abc-123", doneSignal := false,
          lastSeenTime := 0, emitted := [], diagnostics := [] }
        [[{ eventId := "e1",
            message := "START RequestId: other-999 Version: $LATEST",
            ingestionTime := 7 }]]).requestId = "abc-123" :=
  (requestId_never_rebinds
      { eventCache := [], requestId := "abc-123", doneSignal := false,
        lastSeenTime := 0, emitted := [], diagnostics := [] }
      (by decide)).2
    [[{ eventId := "e1",
        message := "START RequestId: other-999 Version: $LATEST",
        ingestionTime := 7 }]]

/-! ## Claim C3 — end marker and loop termination -/

theorem processEventBlocking_ok (st st2 : TailState) (ev : LogEvent)
    (h : processEventBlocking st ev = ChanStep.ok st2) :
    processEvent st ev = st2 := by
  by_cases hc : cachePeek st.eventCache ev.eventId = true
  · simp only [processEventBlocking, if_pos hc, ChanStep.ok.injEq] at h
    rw [processEvent_cached st ev hc, h]
  · by_cases hr : st.requestId = ""
    · cases hs : startRequestSubmatch ev.message <;>
        · simp [processEventBlocking, hc, hr, hs] at h
          simp [processEvent, hc, hr, hs]
          rw [h]
    · cases hs : endRequestSubmatch ev.message with
      | none =>
        simp [processEventBlocking, hc, hr, hs] at h
        simp [processEvent, hc, hr, hs]
        rw [h]
      | some rid =>
        by_cases hd : st.doneSignal = true
        · simp [processEventBlocking, hc, hr, hs, hd] at h
        · simp [processEventBlocking, hc, hr, hs, hd] at h
          simp [processEvent, hc, hr, hs]
          rw [h]

theorem runEventsBlocking_ok (evs : List LogEvent) (st st2 : TailState)
    (h : runEventsBlocking st evs = ChanStep.ok st2) :
    List.foldl processEvent st evs = st2 := by
  induction evs generalizing st with
  | nil =>
    simp only [runEventsBlocking, ChanStep.ok.injEq] at h
    simpa using h
  | cons ev rest ih =>
    rw [List.foldl_cons]
    cases hpe : processEventBlocking st ev with
    | ok stm =>
      have h2 : runEventsBlocking stm rest = ChanStep.ok st2 := by
        simpa only [runEventsBlocking, hpe] using h
      rw [processEventBlocking_ok st stm ev hpe]
      exact ih stm h2
    | stuck stm =>
      simp only [runEventsBlocking, hpe] at h
      exact absurd h (by simp)

theorem processPageBlocking_ok (st st2 : TailState) (p : List LogEvent) (b : Bool)
    (h : processPageBlocking st p b = ChanStep.ok st2) :
    processPage st p b = st2 := by
  unfold processPageBlocking at h
  cases hre : runEventsBlocking st p with
  | stuck stm =>
    rw [hre] at h
    exact absurd h (by simp)
  | ok stm =>
    rw [hre] at h
    have hfold := runEventsBlocking_ok p st stm hre
    unfold processPage
    rw [hfold]
    cases b <;> cases hgl : p.getLast? <;> simp [hgl] at h ⊢ <;> rw [h]

theorem processPagesBlocking_ok (ps : List (List LogEvent)) (st st2 : TailState)
    (h : processPagesBlocking st ps = ChanStep.ok st2) :
    processPages st ps = st2 := by
  induction ps generalizing st with
  | nil =>
    simp only [processPagesBlocking, ChanStep.ok.injEq] at h
    simpa [processPages] using h
  | cons p t ih =>
    cases t with
    | nil =>
      exact processPageBlocking_ok st st2 p true
        (by simpa only [processPagesBlocking] using h)
    | cons q t2 =>
      cases hpb : processPageBlocking st p false with
      | ok stm =>
        have h2 : processPagesBlocking stm (q :: t2) = ChanStep.ok st2 := by
          simpa only [processPagesBlocking, hpb] using h
        show processPages (processPage st p false) (q :: t2) = st2
        rw [processPageBlocking_ok st stm p false hpb]
        exact ih stm h2
      | stuck stm =>
        simp only [processPagesBlocking, hpb] at h
        exact absurd h (by simp)

/-- Claim C3 counterexample: with the session bound to "abc-123", a single
pagination delivering two fresh end-marker events deadlocks the program:
the first `done <- struct{}{}` fills the capacity-1 channel and the second
blocks forever, because the only receiver — the select loop — is itself
blocked in the synchronous `FilterLogEventsPages` call.  The loop never
terminates, so observing an end-marker event does not always make the tail
loop return with no error. -/
theorem second_end_marker_send_deadlocks :
    endRequestSubmatch "END RequestId: abc-123" = some "abc-123" ∧
    isStuck (processPagesBlocking
        { eventCache := [], requestId := "abc-123", doneSignal := false,
          lastSeenTime := 0, emitted := [], diagnostics := [] }
        [[{ eventId := "e1", message := "END RequestId: abc-123",
            ingestionTime := 1 },
          { eventId := "e2", message := "END RequestId: abc-123",
            ingestionTime := 2 }]]) = true := by
  refine ⟨by decide, by decide⟩

/-- Claim C3 amended: in the RUNNING state a fresh end-marker event sends
on the capacity-1 `done` channel.  When the channel is empty the send
succeeds: the done signal is set and a match/mismatch diagnostic is
appended — no hypothesis relates the captured identifier `x` to the
session's `requestId` — and once the pagination completes without a
further blocking send the loop returns the no-error `finished` outcome; a
mismatch is never turned into an error.  But when the channel is already
full (an end marker already fired within this pagination) the send blocks
the callback goroutine forever: the event's id is cached and its line
emitted, no diagnostic is logged, the synchronous `FilterLogEventsPages`
call never returns, and the loop deadlocks instead of terminating. -/
theorem end_marker_terminates (st : TailState) (ev : LogEvent) (x : String)
    (hrun : st.requestId ≠ "")
    (hfresh : cachePeek st.eventCache ev.eventId = false)
    (hend : endRequestSubmatch ev.message = some x) :
    (st.doneSignal = false →
      processEventBlocking st ev = ChanStep.ok (processEvent st ev) ∧
      (processEvent st ev).doneSignal = true ∧
      (processEvent st ev).requestId = st.requestId ∧
      (processEvent st ev).diagnostics = st.diagnostics ++
        [if st.requestId = x then st.requestId ++ " has been finished"
         else st.requestId ++ " has already finished but not catched"] ∧
      (∀ ps st2, processPagesBlocking (processEvent st ev) ps = ChanStep.ok st2 →
        ∀ inps, runCycles st2 inps = LoopResult.finished st2)) ∧
    (st.doneSignal = true →
      processEventBlocking st ev =
        ChanStep.stuck
          { st with
            eventCache := cacheAdd st.eventCache ev.eventId
            emitted := st.emitted ++ [ev.message] }) := by
  have hc : ¬ cachePeek st.eventCache ev.eventId = true := by simp [hfresh]
  constructor
  · intro hds
    have hdone : (processEvent st ev).doneSignal = true := by
      simp [processEvent, hc, hrun, hend]
    refine ⟨?_, hdone, processEvent_requestId_ne st ev hrun, ?_, ?_⟩
    · simp [processEventBlocking, processEvent, hc, hrun, hend, hds]
    · simp [processEvent, hc, hrun, hend]
    · intro ps st2 hok inps
      have heq := processPagesBlocking_ok ps (processEvent st ev) st2 hok
      rw [← heq]
      exact runCycles_done _ (processPages_doneSignal ps _ hdone) inps
  · intro hds
    simp [processEventBlocking, hc, hrun, hend, hds]

/-- Witness for the amended C3: a session bound to "abc-123" sees the
mismatching "END RequestId: xyz-999" — with the channel empty the loop
finishes with no error; with the channel already full the very same event
leaves the callback goroutine stuck. -/
theorem end_marker_terminates_witness :
    processEventBlocking
        { eventCache := [], requestId := "abc-123", doneSignal := false,
          lastSeenTime := 0, emitted := [], diagnostics := [] }
        { eventId := "e1", message := "END RequestId: xyz-999",
          ingestionTime := 5 } =
      ChanStep.ok (processEvent
        { eventCache := [], requestId := "abc-123", doneSignal := false,
          lastSeenTime := 0, emitted := [], diagnostics := [] }
        { eventId := "e1", message := "END RequestId: xyz-999",
          ingestionTime := 5 }) ∧
    (processEvent
        { eventCache := [], requestId := "abc-123", doneSignal := false,
          lastSeenTime := 0, emitted := [], diagnostics := [] }
        { eventId := "e1", message := "END RequestId: xyz-999",
          ingestionTime := 5 }).doneSignal = true ∧
    runCycles
        (processEvent
          { eventCache := [], requestId := "abc-123", doneSignal := false,
            lastSeenTime := 0, emitted := [], diagnostics := [] }
          { eventId := "e1", message := "END RequestId: xyz-999",
            ingestionTime := 5 }) [] =
      LoopResult.finished
        (processEvent
          { eventCache := [], requestId := "abc-123", doneSignal := false,
            lastSeenTime := 0, emitted := [], diagnostics := [] }
          { eventId := "e1", message := "END RequestId: xyz-999",
            ingestionTime := 5 }) ∧
    processEventBlocking
        { eventCache := [], requestId := "abc-123", doneSignal := true,
          lastSeenTime := 0, emitted := [], diagnostics := [] }
        { eventId := "e1", message := "END RequestId: xyz-999",
          ingestionTime := 5 } =
      ChanStep.stuck
        { eventCache := ["e1"], requestId := "abc-123", doneSignal := true,
          lastSeenTime := 0, emitted := ["END RequestId: xyz-999"],
          diagnostics := [] } := by
  have hA := (end_marker_terminates
    { eventCache := [], requestId := "abc-123", doneSignal := false,
      lastSeenTime := 0, emitted := [], diagnostics := [] }
    { eventId := "e1", message := "END RequestId: xyz-999", ingestionTime := 5 }
    "xyz-999" (by decide) (by decide) (by decide)).1 rfl
  have hB := (end_marker_terminates
    { eventCache := [], requestId := "abc-123", doneSignal := true,
      lastSeenTime := 0, emitted := [], diagnostics := [] }
    { eventId := "e1", message := "END RequestId: xyz-999", ingestionTime := 5 }
    "xyz-999" (by decide) (by decide) (by decide)).2 rfl
  refine ⟨hA.1, hA.2.1, hA.2.2.2.2 [] _ rfl [], ?_⟩
  rw [hB]
  decide

/-! ## Claim C8 — malformed input handling in the parser -/

/-- Claim C8 (code bug): contrary to the claim, malformed colon-containing
inputs whose prefix matches an accepted shape make `parseAWSFuncName`
index the split result out of range — a Go runtime panic — instead of
returning the "wrong format function name" error; only inputs that fall
through all three shape tests reach the error return. -/
theorem parse_panics_on_short_arn :
    parseAWSFuncName "arn:aws" = ParseResult.panic 6 ∧
    parseAWSFuncName "arn:aws:lambda:us-west-2:123" = ParseResult.panic 6 ∧
    parseAWSFuncName "123:function" = ParseResult.panic 2 ∧
    parseAWSFuncName "foo:bar" =
      ParseResult.err "wrong format function name, foo:bar" := by
  refine ⟨by decide, by decide, by decide, by decide⟩

/-! ## Claim C7 — the three accepted identifier shapes -/

/-- Claim C7: each of the three accepted identifier shapes parses to the
documented `logGroupName`/`region` pair with no error: a bare name (single
segment) maps to "/aws/lambda/" ++ raw with empty region; a full ARN
(`p[0] = "arn"`, `p[1] = "aws"`, with segments 3 and 6 present) maps to
"/aws/lambda/" ++ p[6] with region p[3]; a partial ARN (`p[0]` an integer,
`p[1] = "function"`, segment 2 present) maps to "/aws/lambda/" ++ p[2]
with empty region. -/
theorem parse_accepted_shapes (raw : String) (p : List String)
    (hp : p = goSplit raw) :
    (p.length = 1 →
      parseAWSFuncName raw = ParseResult.ok ("/aws/lambda/" ++ raw) "") ∧
    (∀ s3 s6, p[0]? = some "arn" → p[1]? = some "aws" → p[3]? = some s3 →
      p[6]? = some s6 →
      parseAWSFuncName raw = ParseResult.ok ("/aws/lambda/" ++ s6) s3) ∧
    (∀ n s2, goAtoi (p.getD 0 "") = some n → p[1]? = some "function" →
      p[2]? = some s2 →
      parseAWSFuncName raw = ParseResult.ok ("/aws/lambda/" ++ s2) "") := by
  subst hp
  refine ⟨?_, ?_, ?_⟩
  · intro h1
    unfold parseAWSFuncName
    rw [if_pos h1]
  · intro s3 s6 h0 h1 h3 h6
    obtain ⟨hlt6, _⟩ := List.getElem?_eq_some.mp h6
    have hlen : ¬ (goSplit raw).length = 1 := by omega
    have hd0 : (goSplit raw).getD 0 "" = "arn" := by
      rw [List.getD_eq_getElem?_getD, h0]
      rfl
    have hd1 : (goSplit raw).getD 1 "" = "aws" := by
      rw [List.getD_eq_getElem?_getD, h1]
      rfl
    unfold parseAWSFuncName
    rw [if_neg hlen, if_pos ⟨hd0, hd1⟩, h6, h3]
  · intro n s2 hn h1 h2
    obtain ⟨hlt2, _⟩ := List.getElem?_eq_some.mp h2
    have hlen : ¬ (goSplit raw).length = 1 := by omega
    have hd1 : (goSplit raw).getD 1 "" = "function" := by
      rw [List.getD_eq_getElem?_getD, h1]
      rfl
    have hnotarn : ¬ ((goSplit raw).getD 0 "" = "arn" ∧ (goSplit raw).getD 1 "" = "aws") := by
      rintro ⟨ha, -⟩
      rw [ha] at hn
      have : goAtoi "arn" = none := by decide
      rw [this] at hn
      exact Option.noConfusion hn
    have hsome : (goAtoi ((goSplit raw).getD 0 "")).isSome = true := by
      rw [hn]
      rfl
    unfold parseAWSFuncName
    rw [if_neg hlen, if_neg hnotarn, if_pos ⟨hsome, hd1⟩, h2]

/-- Witness for C7: the three documented example shapes. -/
theorem parse_accepted_shapes_witness :
    parseAWSFuncName "my-function" =
      ParseResult.ok "/aws/lambda/my-function" "" ∧
    parseAWSFuncName "arn:aws:lambda:us-west-2:123456789012:function:my-function" =
      ParseResult.ok "/aws/lambda/my-function" "us-west-2" ∧
    parseAWSFuncName "123456789012:function:my-function" =
      ParseResult.ok "/aws/lambda/my-function" "" :=
  ⟨(parse_accepted_shapes "my-function" _ rfl).1 (by decide),
   (parse_accepted_shapes "arn:aws:lambda:us-west-2:123456789012:function:my-function"
      _ rfl).2.1 "us-west-2" "my-function" (by decide) (by decide) (by decide) (by decide),
   (parse_accepted_shapes "123456789012:function:my-function" _ rfl).2.2
      123456789012 "my-function" (by decide) (by decide) (by decide)⟩

/-! ## Claim C5 — stream candidate condition -/

/-- Claim C5 counterexample: a stream whose three timestamp fields are all
present and whose lastIngestionTime is at or after the watermark satisfies
the claim's candidate condition, yet the source skips it because its
`UploadSequenceToken` is nil — a fourth condition the claim says does not
exist. -/
theorem stream_candidate_counterexample :
    claimStreamCandidate 0
        { logStreamName := "s", firstEventTimestamp := some 0,
          lastEventTimestamp := some 0, lastIngestionTime := some 100,
          uploadSequenceToken := none } = true ∧
    streamCandidate 0
        { logStreamName := "s", firstEventTimestamp := some 0,
          lastEventTimestamp := some 0, lastIngestionTime := some 100,
          uploadSequenceToken := none } = false := by
  refine ⟨by decide, by decide⟩

/-- Claim C5 amended: a stream is a candidate iff `lastIngestionTime ≥`
the watermark and all four dereferenced fields — `firstEventTimestamp`,
`lastEventTimestamp`, `lastIngestionTime` and `uploadSequenceToken` — are
present; a stream missing any of the four is skipped. -/
theorem stream_candidate_iff (since : Int) (s : LogStream) :
    streamCandidate since s = true ↔
      s.firstEventTimestamp.isSome = true ∧
      s.lastEventTimestamp.isSome = true ∧
      s.uploadSequenceToken.isSome = true ∧
      ∃ it, s.lastIngestionTime = some it ∧ since ≤ it := by
  rcases s with ⟨name, f, l, ing, tok⟩
  cases f <;> cases l <;> cases ing <;> cases tok <;>
    simp [streamCandidate]

/-! ## Claim C2 — the lastSeenTime watermark -/

/-- Claim C2 counterexample: the watermark is not monotone.  `logTail`
assigns `lastSeenTime = res.Events[len-1].IngestionTime` with no maximum
against the previous value, and `FilterLogEvents` filters on event
timestamps, not ingestion times — so a delivered event with ingestion
time 50 drags a watermark of 100 backwards to 50 in one cycle. -/
theorem watermark_not_monotone :
    ({ eventCache := [], requestId := "", doneSignal := false,
       lastSeenTime := 100, emitted := [], diagnostics := [] } : TailState).lastSeenTime = 100 ∧
    (stepState (tickStep
        { eventCache := [], requestId := "", doneSignal := false,
          lastSeenTime := 100, emitted := [], diagnostics := [] }
        { discPages := [[{ logStreamName := "s0", firstEventTimestamp := some 0,
                           lastEventTimestamp := some 0,
                           lastIngestionTime := some 200,
                           uploadSequenceToken := some "t" }]],
          discErr := none,
          fetchPages := [[{ eventId := "e1", message := "hello",
                            ingestionTime := 50 }]],
          fetchErr := none, ctxDone := false })).lastSeenTime = 50 ∧
    ¬ (100 : Int) ≤ 50 := by
  refine ⟨rfl, by decide, by decide⟩

/-- Claim C2 amended: per poll cycle, the watermark is unchanged unless a
successful fetch's last page is nonempty, in which case it becomes the
ingestion time of that page's final event; in particular a cycle whose
pages contain no events leaves it unchanged, and it is non-decreasing
provided every delivered event's ingestion time is at or after the current
watermark (which the code assumes of the backend but does not enforce). -/
theorem watermark_per_cycle (st : TailState) (inp : CycleInput)
    (hinge : ∀ p ∈ inp.fetchPages, ∀ e ∈ p, st.lastSeenTime ≤ e.ingestionTime) :
    st.lastSeenTime ≤ (stepState (tickStep st inp)).lastSeenTime ∧
    ((∀ p ∈ inp.fetchPages, p = []) →
      (stepState (tickStep st inp)).lastSeenTime = st.lastSeenTime) ∧
    (∀ streams lastP e,
      listLogStreamsModel st.lastSeenTime inp.discPages inp.discErr =
        DiscResult.ok streams →
      streams ≠ [] → inp.fetchErr = none →
      inp.fetchPages.getLast? = some lastP → lastP.getLast? = some e →
      (stepState (tickStep st inp)).lastSeenTime = e.ingestionTime) := by
  cases hdisc : listLogStreamsModel st.lastSeenTime inp.discPages inp.discErr with
  | fail e =>
    have hts : tickStep st inp = StepResult.fail st ("listLogStreams: " ++ e) := by
      simp only [tickStep, hdisc]
    rw [hts]
    refine ⟨le_refl _, fun _ => rfl, ?_⟩
    intro streams lastP e' hok
    exact absurd hok (by simp)
  | ok streams =>
    by_cases hemp : streams.isEmpty = true
    · have hts : tickStep st inp = StepResult.next st := by
        simp only [tickStep, hdisc, if_pos hemp]
      rw [hts]
      refine ⟨le_refl _, fun _ => rfl, ?_⟩
      intro streams' lastP e' hok hne
      injection hok with h
      subst h
      exact absurd (List.isEmpty_iff.mp hemp) hne
    · have hemp' : streams.isEmpty = false := by
        cases h : streams.isEmpty
        · rfl
        · exact absurd h hemp
      cases hfe : inp.fetchErr with
      | none =>
        have hts : tickStep st inp = StepResult.next (processPages st inp.fetchPages) := by
          simp [tickStep, hdisc, hemp', hfe]
        rw [hts]
        show st.lastSeenTime ≤ (processPages st inp.fetchPages).lastSeenTime ∧ _
        have hlast := processPages_lastSeenTime inp.fetchPages st
        refine ⟨?_, ?_, ?_⟩
        · rw [hlast]
          cases hli : lastEventIngestion inp.fetchPages with
          | none => simp
          | some v =>
            simp only [Option.getD_some]
            obtain ⟨lastP, hlp, e, he, hv⟩ : ∃ lastP, inp.fetchPages.getLast? = some lastP ∧
                ∃ e, lastP.getLast? = some e ∧ v = e.ingestionTime := by
              unfold lastEventIngestion at hli
              cases hgl : inp.fetchPages.getLast? with
              | none =>
                rw [hgl] at hli
                simp at hli
              | some lastP =>
                rw [hgl] at hli
                cases hgl2 : lastP.getLast? with
                | none => simp [hgl2] at hli
                | some e =>
                  simp [hgl2] at hli
                  exact ⟨lastP, rfl, e, hgl2, hli.symm⟩
            subst hv
            exact hinge lastP (getLast?_mem_own _ _ hlp) e (getLast?_mem_own _ _ he)
        · intro hall
          show (processPages st inp.fetchPages).lastSeenTime = st.lastSeenTime
          rw [hlast]
          cases hgl : inp.fetchPages.getLast? with
          | none => simp [lastEventIngestion, hgl]
          | some lastP =>
            have hlp : lastP = [] := hall lastP (getLast?_mem_own _ _ hgl)
            subst hlp
            simp [lastEventIngestion, hgl]
        · intro streams' lastP e hok hne hfe' hlp hle
          show (processPages st inp.fetchPages).lastSeenTime = e.ingestionTime
          rw [hlast]
          simp [lastEventIngestion, hlp, hle]
      | some be =>
        have h := processDeliveredPages_lastSeenTime inp.fetchPages st
        cases be with
        | throttling =>
          have hts : tickStep st inp =
              StepResult.next (processDeliveredPages st inp.fetchPages) := by
            simp [tickStep, hdisc, hemp', hfe]
          rw [hts]
          refine ⟨le_of_eq h.symm, fun _ => h, ?_⟩
          intro streams' lastP e hok hne hfe'
          exact absurd hfe' (by simp)
        | notFound =>
          have hts : tickStep st inp =
              StepResult.fail (processDeliveredPages st inp.fetchPages)
                "FilterLogEventsPages: ResourceNotFoundException" := by
            simp [tickStep, hdisc, hemp', hfe]
          rw [hts]
          refine ⟨le_of_eq h.symm, fun _ => h, ?_⟩
          intro streams' lastP e hok hne hfe'
          exact absurd hfe' (by simp)
        | other code =>
          have hts : tickStep st inp =
              StepResult.fail (processDeliveredPages st inp.fetchPages)
                ("FilterLogEventsPages: " ++ code) := by
            simp [tickStep, hdisc, hemp', hfe]
          rw [hts]
          refine ⟨le_of_eq h.symm, fun _ => h, ?_⟩
          intro streams' lastP e hok hne hfe'
          exact absurd hfe' (by simp)

/-- Witness for the amended C2 at a concrete cycle: every delivered event
is ingested at or after the watermark, and the watermark does not
decrease. -/
theorem watermark_per_cycle_witness :
    (10 : Int) ≤ (stepState (tickStep
        { eventCache := [], requestId := "", doneSignal := false,
          lastSeenTime := 10, emitted := [], diagnostics := [] }
        { discPages := [[{ logStreamName := "s0", firstEventTimestamp := some 0,
                           lastEventTimestamp := some 0,
                           lastIngestionTime := some 20,
                           uploadSequenceToken := some "t" }]],
          discErr := none,
          fetchPages := [[{ eventId := "e1", message := "hello",
                            ingestionTime := 20 }]],
          fetchErr := none, ctxDone := false })).lastSeenTime :=
  (watermark_per_cycle
      { eventCache := [], requestId := "", doneSignal := false,
        lastSeenTime := 10, emitted := [], diagnostics := [] }
      { discPages := [[{ logStreamName := "s0", firstEventTimestamp := some 0,
                         lastEventTimestamp := some 0,
                         lastIngestionTime := some 20,
                         uploadSequenceToken := some "t" }]],
        discErr := none,
        fetchPages := [[{ eventId := "e1", message := "hello",
                          ingestionTime := 20 }]],
        fetchErr := none, ctxDone := false } (by decide)).1

/-! ## Claim C6 — throttling never terminates the loop -/

/-- Claim C6: a ThrottlingException from stream discovery makes the cycle a
no-op (`listLogStreams` sleeps 500ms and returns `nil, nil`, so the loop
just continues with the state — watermark included — unchanged, and the
next tick retries the whole discovery call); a ThrottlingException from the
event fetch also continues the loop after the 500ms backoff, with the
watermark unchanged (the pages delivered before the error are processed
with `lastPage = false`, which never advances `lastSeenTime`); in both
cases the loop proceeds to the remaining cycles rather than returning.  The
backoff constant in the source is 500ms. -/
theorem throttling_never_terminates (st : TailState) (i1 i2 : CycleInput)
    (rest : List CycleInput)
    (hds : st.doneSignal = false) (hcd : i1.ctxDone = false)
    (h1 : i1.discErr = some BackendErr.throttling)
    (h2 : i2.discErr = none)
    (h3 : i2.fetchErr = some BackendErr.throttling) :
    tickStep st i1 = StepResult.next st ∧
    runCycles st (i1 :: rest) = runCycles st rest ∧
    (∃ st2, tickStep st i2 = StepResult.next st2 ∧
      st2.lastSeenTime = st.lastSeenTime) ∧
    throttleBackoffMillis = 500 := by
  have hts1 : tickStep st i1 = StepResult.next st := by
    simp [tickStep, listLogStreamsModel, h1]
  refine ⟨hts1, ?_, ?_, rfl⟩
  · show runCycles st (i1 :: rest) = runCycles st rest
    rw [runCycles]
    simp [hds, hcd, hts1]
  · by_cases hemp : (listLogStreamsPages st.lastSeenTime i2.discPages []).isEmpty = true
    · refine ⟨st, ?_, rfl⟩
      simp [tickStep, listLogStreamsModel, h2, hemp]
    · refine ⟨processDeliveredPages st i2.fetchPages, ?_,
        processDeliveredPages_lastSeenTime i2.fetchPages st⟩
      have hemp' : (listLogStreamsPages st.lastSeenTime i2.discPages []).isEmpty = false := by
        cases h : (listLogStreamsPages st.lastSeenTime i2.discPages []).isEmpty
        · rfl
        · exact absurd h hemp
      simp [tickStep, listLogStreamsModel, h2, hemp', h3]

/-- Witness for C6: both throttling paths at concrete inputs. -/
theorem throttling_never_terminates_witness :
    tickStep
        { eventCache := [], requestId := "", doneSignal := false,
          lastSeenTime := 10, emitted := [], diagnostics := [] }
        { discPages := [[{ logStreamName := "s0", firstEventTimestamp := some 0,
                           lastEventTimestamp := some 0,
                           lastIngestionTime := some 20,
                           uploadSequenceToken := some "t" }]],
          discErr := some BackendErr.throttling,
          fetchPages := [], fetchErr := none, ctxDone := false } =
      StepResult.next
        { eventCache := [], requestId := "", doneSignal := false,
          lastSeenTime := 10, emitted := [], diagnostics := [] } ∧
    (∃ st2, tickStep
        { eventCache := [], requestId := "", doneSignal := false,
          lastSeenTime := 10, emitted := [], diagnostics := [] }
        { discPages := [[{ logStreamName := "s0", firstEventTimestamp := some 0,
                           lastEventTimestamp := some 0,
                           lastIngestionTime := some 20,
                           uploadSequenceToken := some "t" }]],
          discErr := none,
          fetchPages := [[{ eventId := "e1", message := "hello",
                            ingestionTime := 99 }]],
          fetchErr := some BackendErr.throttling, ctxDone := false } =
      StepResult.next st2 ∧ st2.lastSeenTime = (10 : Int)) := by
  have h := throttling_never_terminates
    { eventCache := [], requestId := "", doneSignal := false,
      lastSeenTime := 10, emitted := [], diagnostics := [] }
    { discPages := [[{ logStreamName := "s0", firstEventTimestamp := some 0,
                       lastEventTimestamp := some 0,
                       lastIngestionTime := some 20,
                       uploadSequenceToken := some "t" }]],
      discErr := some BackendErr.throttling,
      fetchPages := [], fetchErr := none, ctxDone := false }
    { discPages := [[{ logStreamName := "s0", firstEventTimestamp := some 0,
                       lastEventTimestamp := some 0,
                       lastIngestionTime := some 20,
                       uploadSequenceToken := some "t" }]],
      discErr := none,
      fetchPages := [[{ eventId := "e1", message := "hello",
                        ingestionTime := 99 }]],
      fetchErr := some BackendErr.throttling, ctxDone := false }
    [] rfl rfl rfl rfl rfl
  exact ⟨h.1, h.2.2.1⟩

/-! ## Claim C9 — cancellation-token threading -/

/-- Claim C9 counterexample: not every blocking backend call carries the
cancellation context — the event fetch is `FilterLogEventsPages`, the
variant without a context argument. -/
theorem ctx_not_threaded_through_fetch :
    ¬ (∀ c ∈ engineBackendCalls, c.withContext = true) := by
  decide

/-- Claim C9 amended: the cancellation token is threaded through the
invoke call and through stream discovery, but not through the event fetch
(`FilterLogEventsPages` takes no context); cancellation is still observed
between poll cycles at the select's `ctx.Done()` branch, which returns the
cancellation error — an outcome distinct from a backend failure. -/
theorem ctx_threading (st : TailState) (i : CycleInput)
    (inps : List CycleInput)
    (hdone : st.doneSignal = false) (hc : i.ctxDone = true) :
    (engineBackendCalls.map fun c => (c.name, c.withContext)) =
      [("InvokeWithContext", true),
       ("DescribeLogStreamsPagesWithContext", true),
       ("FilterLogEventsPages", false)] ∧
    runCycles st (i :: inps) = LoopResult.cancelled st ∧
    (∀ st' e, LoopResult.cancelled st' ≠ LoopResult.failed st' e) := by
  refine ⟨rfl, ?_, fun st' e => by simp⟩
  rw [runCycles]
  simp [hdone, hc]

/-- Witness for the amended C9: a cancelled context at the head of the
cycle list returns the cancellation outcome. -/
theorem ctx_threading_witness :
    runCycles
        { eventCache := [], requestId := "", doneSignal := false,
          lastSeenTime := 0, emitted := [], diagnostics := [] }
        [{ discPages := [], discErr := none, fetchPages := [],
           fetchErr := none, ctxDone := true }] =
      LoopResult.cancelled
        { eventCache := [], requestId := "", doneSignal := false,
          lastSeenTime := 0, emitted := [], diagnostics := [] } :=
  (ctx_threading
      { eventCache := [], requestId := "", doneSignal := false,
        lastSeenTime := 0, emitted := [], diagnostics := [] }
      { discPages := [], discErr := none, fetchPages := [],
        fetchErr := none, ctxDone := true }
      [] rfl rfl).2.1

/-! ## Claim C4 — marker extraction and surrounding text -/

/-- Claim C4 counterexample: the end-marker capture group is the greedy
`(.+)`, which runs to the end of the line — so a message carrying extra
text after the literal marker "END RequestId: abc-123" extracts
"abc-123 extra", not exactly the identifier token "abc-123". -/
theorem end_capture_includes_trailing_text :
    "END RequestId: abc-123 extra" = "END RequestId: " ++ "abc-123" ++ " extra" ∧
    endRequestSubmatch ("END RequestId: " ++ "abc-123" ++ " extra") =
      some "abc-123 extra" ∧
    "abc-123 extra" ≠ "abc-123" := by
  refine ⟨rfl, by decide, by decide⟩

/-- Claim C4 amended: extraction tolerates text around the markers only up
to the greedy, line-bounded semantics of the two patterns.  (a) For the
start marker, a message `pre ++ "START RequestId: " ++ id ++ " Version:"
++ suf` extracts exactly `id` provided no occurrence of the start marker
begins inside `pre`, `id` is nonempty and newline-free, and `" Version:"`
does not recur after the capture on the same line.  (b) For the end
marker, a message `pre ++ "END RequestId: " ++ id ++ suf` extracts
`id ++ suf` truncated at the first newline — trailing text becomes part of
the extracted token.  (c) A message containing neither marker leaves the
session's `requestId` and state-machine state unchanged. -/
theorem marker_extraction_amended :
    (∀ (pre id suf : List Char),
      (∀ i, i < pre.length →
        listStartsWith startReqPat
          ((pre ++ (startReqPat ++ (id ++ (startReqSuf ++ suf)))).drop i) = false) →
      id ≠ [] → '\n' ∉ id →
      (∀ t, t < (startReqSuf ++ suf.takeWhile (fun c => c != '\n')).length →
        0 < t →
        listStartsWith startReqSuf
          ((startReqSuf ++ suf.takeWhile (fun c => c != '\n')).drop t) = false) →
      findSubmatch startReqPat startReqSuf
        (pre ++ (startReqPat ++ (id ++ (startReqSuf ++ suf)))) = some id) ∧
    (∀ (pre id suf : List Char),
      (∀ i, i < pre.length →
        listStartsWith endReqPat
          ((pre ++ (endReqPat ++ (id ++ suf))).drop i) = false) →
      id ≠ [] → '\n' ∉ id →
      findSubmatch endReqPat [] (pre ++ (endReqPat ++ (id ++ suf))) =
        some ((id ++ suf).takeWhile (fun c => c != '\n'))) ∧
    (∀ (st : TailState) (ev : LogEvent),
      containsSeq startReqPat ev.message.data = false →
      containsSeq endReqPat ev.message.data = false →
      (processEvent st ev).requestId = st.requestId ∧
      (processEvent st ev).doneSignal = st.doneSignal) := by
  refine ⟨?_, ?_, ?_⟩
  · intro pre id suf h1 h2 h3 h4
    have hq : ∀ x ∈ id, (x != '\n') = true := by
      intro x hx
      have hxne : x ≠ '\n' := fun he => h3 (he ▸ hx)
      simpa using hxne
    have hsufq : ∀ x ∈ startReqSuf, (x != '\n') = true := by decide
    have hline : (id ++ (startReqSuf ++ suf)).takeWhile (fun c => c != '\n') =
        id ++ (startReqSuf ++ suf.takeWhile (fun c => c != '\n')) := by
      rw [takeWhile_append_all _ id _ hq, takeWhile_append_all _ startReqSuf _ hsufq]
    have hlenpos : 1 ≤ id.length := List.length_pos.mpr h2
    have hmatch : listStartsWith startReqSuf
        ((id ++ (startReqSuf ++ suf.takeWhile (fun c => c != '\n'))).drop
          id.length) = true := by
      rw [List.drop_left]
      exact lsw_self_append _ _
    have habove : ∀ t, id.length < t → listStartsWith startReqSuf
        ((id ++ (startReqSuf ++ suf.takeWhile (fun c => c != '\n'))).drop t) =
          false := by
      intro t ht
      have hu : t = id.length + (t - id.length) := by omega
      rw [hu, drop_append_add]
      by_cases hult :
          t - id.length < (startReqSuf ++ suf.takeWhile (fun c => c != '\n')).length
      · exact h4 (t - id.length) hult (by omega)
      · rw [List.drop_eq_nil_of_le (by omega)]
        decide
    have hgi : greedyIdx startReqSuf
        (id ++ (startReqSuf ++ suf.takeWhile (fun c => c != '\n'))) =
          some id.length :=
      greedyIdx_eq _ _ _ hlenpos hmatch habove
    have hcap : greedyCap (id ++ (startReqSuf ++ suf)) startReqSuf = some id := by
      simp only [greedyCap, hline, hgi]
      rw [List.take_left]
    rw [findSubmatch_skip _ _ pre _ h1]
    exact findSubmatch_at _ _ _ _ (by decide) hcap
  · intro pre id suf h1 h2 h3
    have hline_ne : (id ++ suf).takeWhile (fun c => c != '\n') ≠ [] := by
      cases id with
      | nil => exact absurd rfl h2
      | cons c id' =>
        have hc : (c != '\n') = true := by
          have hcne : c ≠ '\n' := fun he => h3 (he ▸ List.mem_cons_self c id')
          simpa using hcne
        simp [List.takeWhile_cons, hc]
    have hcap : greedyCap (id ++ suf) [] =
        some ((id ++ suf).takeWhile (fun c => c != '\n')) := by
      simp only [greedyCap, greedyIdx_empty _ hline_ne]
      rw [List.take_length]
    rw [findSubmatch_skip _ _ pre _ h1]
    exact findSubmatch_at _ _ _ _ (by decide) hcap
  · intro st ev hcs hce
    have hstart : startRequestSubmatch ev.message = none := by
      unfold startRequestSubmatch
      rw [findSubmatch_none _ _ _ hcs]
      rfl
    have hend : endRequestSubmatch ev.message = none := by
      unfold endRequestSubmatch
      rw [findSubmatch_none _ _ _ hce]
      rfl
    by_cases hc : cachePeek st.eventCache ev.eventId = true
    · rw [processEvent_cached st ev hc]
      exact ⟨rfl, rfl⟩
    · by_cases hr : st.requestId = ""
      · constructor <;> simp [processEvent, hc, hr, hstart]
      · constructor <;> simp [processEvent, hc, hr, hend]

/-- Witness for the amended C4: concrete messages with text before and
after each marker, and a marker-free message through `processEvent`. -/
theorem marker_extraction_amended_witness :
    findSubmatch startReqPat startReqSuf
        ("ts ".data ++ (startReqPat ++ ("abc".data ++ (startReqSuf ++ " $LATEST".data)))) =
      some "abc".data ∧
    findSubmatch endReqPat []
        ("x ".data ++ (endReqPat ++ ("abc-123".data ++ " trailing".data))) =
      some (("abc-123".data ++ " trailing".data).takeWhile (fun c => c != '\n')) ∧
    (processEvent
        { eventCache := [], requestId := "", doneSignal := false,
          lastSeenTime := 0, emitted := [], diagnostics := [] }
        { eventId := "e1", message := "hello world", ingestionTime := 1 }).requestId =
      ({ eventCache := [], requestId := "", doneSignal := false,
         lastSeenTime := 0, emitted := [], diagnostics := [] } : TailState).requestId := by
  refine ⟨?_, ?_, ?_⟩
  · exact marker_extraction_amended.1 "ts ".data "abc".data " $LATEST".data
      (by decide) (by decide) (by decide) (by decide)
  · exact marker_extraction_amended.2.1 "x ".data "abc-123".data " trailing".data
      (by decide) (by decide) (by decide)
  · exact (marker_extraction_amended.2.2
      { eventCache := [], requestId := "", doneSignal := false,
        lastSeenTime := 0, emitted := [], diagnostics := [] }
      { eventId := "e1", message := "hello world", ingestionTime := 1 }
      (by decide) (by decide)).1
